import Mathlib

/-
  Verification of the Delta Sync Client
  (src/examples/simple-example/fault-tolerant/delta/create-client.js).

  The file shallowly embeds three pieces of client logic:
  the outbound message builder `getMessages`, the inbound message
  applier `handleMessages` (modelled per message as `handleMessage`),
  and the clock wrappers `getStamp` / `recvClock` / `setClock`.
  External collaborators (CRDT, persistence, clock persistence) are
  modelled as oracles supplied to the functions, exactly at the calls
  the source makes.  The hybrid-logical-clock package is part of the
  repository but not under src/, so it is modelled from the spec (§3,
  §4.1).
-/

namespace LocalFirst

/-- Modelled from the spec: the `@local-first/hybrid-logical-clock`
package is repository code not under src/.  Per §3, a LogicalClock is
`{ node, timestamp, counter }`; we call the fields `ts`, `count`,
`node`. -/
structure HLC where
  ts : Nat
  count : Nat
  node : String
deriving DecidableEq

namespace Hlc

/-- Modelled from the spec (§4.1): `getStamp` "increments the local
clock against current wall time"; the standard HLC increment takes the
max of the stored timestamp and the wall clock, bumping the counter on
a tie. -/
def inc (c : HLC) (now : Nat) : HLC :=
  if c.ts < now then ⟨now, 0, c.node⟩ else ⟨c.ts, c.count + 1, c.node⟩

/-- Modelled from the spec (§4.1): the standard hybrid-logical-clock
receive rule — "local clock advances to be causally after both its
previous value and the remote stamp". -/
def recv (l : HLC) (r : HLC) (now : Nat) : HLC :=
  if l.ts < now ∧ r.ts < now then ⟨now, 0, l.node⟩
  else if l.ts = r.ts then ⟨l.ts, max l.count r.count + 1, l.node⟩
  else if r.ts < l.ts then ⟨l.ts, l.count + 1, l.node⟩
  else ⟨r.ts, r.count + 1, l.node⟩

/-- Modelled from the spec (§4.1): the packed, serializable form of a
clock; the claims compare stamps under the total order of the clock, so the
pack serialization only needs to exist. -/
def pack (c : HLC) : String :=
  toString c.ts ++ ":" ++ toString c.count ++ ":" ++ c.node

/-- The total order of the clock (spec §3): lexicographic on
(timestamp, counter, node). -/
def hlcLt (a b : HLC) : Prop :=
  a.ts < b.ts ∨ (a.ts = b.ts ∧
    (a.count < b.count ∨ (a.count = b.count ∧ a.node < b.node)))

instance (a b : HLC) : Decidable (hlcLt a b) := by
  unfold hlcLt; exact inferInstance

/-- Weak version of the clock order. -/
def hlcLe (a b : HLC) : Prop := hlcLt a b ∨ a = b

theorem hlcLt_trans {a b c : HLC} (h1 : hlcLt a b) (h2 : hlcLt b c) :
    hlcLt a c := by
  unfold hlcLt at *
  rcases h1 with h1 | ⟨e1, h1⟩
  · rcases h2 with h2 | ⟨e2, _⟩
    · exact Or.inl (Nat.lt_trans h1 h2)
    · exact Or.inl (e2 ▸ h1)
  · rcases h2 with h2 | ⟨e2, h2⟩
    · exact Or.inl (e1 ▸ h2)
    · refine Or.inr ⟨e1.trans e2, ?_⟩
      rcases h1 with h1 | ⟨e1c, h1⟩
      · rcases h2 with h2 | ⟨e2c, _⟩
        · exact Or.inl (Nat.lt_trans h1 h2)
        · exact Or.inl (e2c ▸ h1)
      · rcases h2 with h2 | ⟨e2c, h2⟩
        · exact Or.inl (e1c ▸ h2)
        · exact Or.inr ⟨e1c.trans e2c, lt_trans h1 h2⟩

theorem hlcLe_lt_trans {a b c : HLC} (h1 : hlcLe a b) (h2 : hlcLt b c) :
    hlcLt a c := by
  rcases h1 with h1 | rfl
  · exact hlcLt_trans h1 h2
  · exact h2

/-- `inc` strictly advances the clock, whatever the wall time says. -/
theorem hlcLt_inc (c : HLC) (now : Nat) : hlcLt c (inc c now) := by
  unfold inc hlcLt
  split_ifs with h
  · exact Or.inl h
  · exact Or.inr ⟨rfl, Or.inl (Nat.lt_succ_self _)⟩

/-- `recv` strictly advances past the previous local clock. -/
theorem hlcLt_recv_left (l r : HLC) (now : Nat) :
    hlcLt l (recv l r now) := by
  unfold recv hlcLt
  split_ifs with h1 h2 h3
  · exact Or.inl h1.1
  · exact Or.inr ⟨rfl, Or.inl (Nat.lt_succ_of_le (Nat.le_max_left _ _))⟩
  · exact Or.inr ⟨rfl, Or.inl (Nat.lt_succ_self _)⟩
  · refine Or.inl ?_
    show l.ts < r.ts
    omega

/-- `recv` strictly advances past the remote stamp. -/
theorem hlcLt_recv_right (l r : HLC) (now : Nat) :
    hlcLt r (recv l r now) := by
  unfold recv hlcLt
  split_ifs with h1 h2 h3
  · exact Or.inl h1.2
  · exact Or.inr ⟨h2.symm, Or.inl (Nat.lt_succ_of_le (Nat.le_max_right _ _))⟩
  · exact Or.inl h3
  · exact Or.inr ⟨rfl, Or.inl (Nat.lt_succ_self _)⟩

end Hlc

open Hlc

/-- A clock operation in a trace: either the client issues a stamp
(`getStamp`, source line 162) or it merges a received remote stamp
(`recvClock`, source line 173).  Each carries the wall-clock reading
`Date.now()` observed at that moment. -/
inductive ClockOp where
  | stampOp (now : Nat)
  | recvOp (remote : HLC) (now : Nat)

/-- How one operation advances the in-memory clock:
`clock = hlc.inc(clock, Date.now())` resp.
`clock = hlc.recv(clock, newClock, Date.now())`. -/
def applyOp (c : HLC) : ClockOp → HLC
  | .stampOp now => inc c now
  | .recvOp r now => recv c r now

/-- The clock after running a trace of operations. -/
def runClock (c : HLC) : List ClockOp → HLC
  | [] => c
  | op :: ops => runClock (applyOp c op) ops

/-- The stamps issued by `getStamp` along a trace: each is the clock
value right after its `hlc.inc` (the source returns `hlc.pack(clock)`;
packing is an order-compatible serialization, so we track the clock
values the stamps denote). -/
def issued (c : HLC) : List ClockOp → List HLC
  | [] => []
  | .stampOp now :: ops => inc c now :: issued (inc c now) ops
  | .recvOp r now :: ops => issued (recv c r now) ops

/-- The remote stamps received along a trace. -/
def received : List ClockOp → List HLC
  | [] => []
  | .stampOp _ :: ops => received ops
  | .recvOp r _ :: ops => r :: received ops

theorem hlcLt_applyOp (c : HLC) (op : ClockOp) : hlcLt c (applyOp c op) := by
  cases op with
  | stampOp now => exact hlcLt_inc c now
  | recvOp r now => exact hlcLt_recv_left c r now

/-- The clock never moves backwards along a trace. -/
theorem hlcLe_runClock (c : HLC) (ops : List ClockOp) :
    hlcLe c (runClock c ops) := by
  induction ops generalizing c with
  | nil => exact Or.inr rfl
  | cons op ops ih =>
    rcases ih (applyOp c op) with h | h
    · exact Or.inl (hlcLt_trans (hlcLt_applyOp c op) h)
    · exact Or.inl (h ▸ hlcLt_applyOp c op)

/-- Every stamp issued along a trace is strictly above the clock the
trace started from. -/
theorem hlcLt_issued (ops : List ClockOp) (c : HLC) :
    ∀ s ∈ issued c ops, hlcLt c s := by
  induction ops generalizing c with
  | nil => intro s hs; simp [issued] at hs
  | cons op ops ih =>
    intro s hs
    cases op with
    | stampOp now =>
      simp only [issued, List.mem_cons] at hs
      rcases hs with rfl | hs
      · exact hlcLt_inc c now
      · exact hlcLt_trans (hlcLt_inc c now) (ih (inc c now) s hs)
    | recvOp r now =>
      simp only [issued] at hs
      exact hlcLt_trans (hlcLt_recv_left c r now) (ih (recv c r now) s hs)

/-- Every stamp issued along a trace is at or below the clock the trace
ends with. -/
theorem issued_le_runClock (ops : List ClockOp) (c : HLC) :
    ∀ s ∈ issued c ops, hlcLe s (runClock c ops) := by
  induction ops generalizing c with
  | nil => intro s hs; simp [issued] at hs
  | cons op ops ih =>
    intro s hs
    cases op with
    | stampOp now =>
      simp only [issued, List.mem_cons] at hs
      rcases hs with rfl | hs
      · exact hlcLe_runClock _ ops
      · exact ih (inc c now) s hs
    | recvOp r now =>
      simp only [issued] at hs
      exact ih (recv c r now) s hs

/-- Every remote stamp received along a trace is strictly below the
clock the trace ends with. -/
theorem received_lt_runClock (ops : List ClockOp) (c : HLC) :
    ∀ r ∈ received ops, hlcLt r (runClock c ops) := by
  induction ops generalizing c with
  | nil => intro r hr; simp [received] at hr
  | cons op ops ih =>
    intro r hr
    cases op with
    | stampOp now =>
      simp only [received] at hr
      exact ih (inc c now) r hr
    | recvOp rm now =>
      simp only [received, List.mem_cons] at hr
      rcases hr with rfl | hr
      · rcases hlcLe_runClock (recv c r now) ops with h | h
        · exact hlcLt_trans (hlcLt_recv_right c r now) h
        · exact h ▸ hlcLt_recv_right c r now
      · exact ih (recv c rm now) r hr

/-- Issued stamps split across a concatenation of traces. -/
theorem issued_append (pre post : List ClockOp) (c : HLC) :
    issued c (pre ++ post) = issued c pre ++ issued (runClock c pre) post := by
  induction pre generalizing c with
  | nil => simp [issued, runClock]
  | cons op ops ih =>
    cases op with
    | stampOp now => simp [issued, runClock, applyOp, ih]
    | recvOp r now => simp [issued, runClock, applyOp, ih]

/-- The sequence of issued stamps is strictly increasing. -/
theorem chain_issued (ops : List ClockOp) (c : HLC) :
    List.Chain' hlcLt (issued c ops) := by
  induction ops generalizing c with
  | nil => simp [issued]
  | cons op ops ih =>
    cases op with
    | stampOp now =>
      simp only [issued]
      refine List.chain'_cons'.mpr ⟨?_, ih (inc c now)⟩
      intro y hy
      exact hlcLt_issued ops (inc c now) y (List.mem_of_mem_head? hy)
    | recvOp r now =>
      simp only [issued]
      exact ih (recv c r now)

/-- `getStamp` (source lines 162–166): advance the in-memory clock with
`hlc.inc`, write it to clock persistence, and return the packed stamp.
The clock-persistence collaborator is an oracle that may throw; a throw
aborts the call after the in-memory assignment.  Returns the new
in-memory clock together with the outcome of the call. -/
def getStampOp {E : Type} (set : HLC → Except E Unit) (c : HLC) (now : Nat) :
    HLC × Except E String :=
  let clock := Hlc.inc c now
  (clock, (set clock).map (fun _ => Hlc.pack clock))

/-- `setClock` (source lines 168–171): overwrite the in-memory clock and
persist it. -/
def setClockOp {E : Type} (set : HLC → Except E Unit) (newClock : HLC) :
    HLC × Except E Unit :=
  let clock := newClock
  (clock, set clock)

/-- `recvClock` (source lines 173–176): merge the received clock with
`hlc.recv` and persist the result. -/
def recvClockOp {E : Type} (set : HLC → Except E Unit) (c : HLC)
    (newClock : HLC) (now : Nat) : HLC × Except E Unit :=
  let clock := Hlc.recv c newClock now
  (clock, set clock)

end LocalFirst

namespace LocalFirst

/-- C7: For any sequence of getStamp() calls, with or without
interleaved clock-receive operations in between, the returned stamps
are strictly increasing under the total order of the clock; every stamp
issued locally is strictly greater than any previously issued or
received stamp.  The trace is split into an arbitrary prefix `pre` and
suffix `post`: any stamp issued in the suffix strictly dominates every
stamp issued in the prefix and every remote stamp received in the
prefix. -/
theorem clock_stamps_strict_mono (c0 : HLC) (pre post : List ClockOp) :
    List.Chain' Hlc.hlcLt (issued c0 (pre ++ post)) ∧
      ∀ s ∈ issued (runClock c0 pre) post,
        (∀ t ∈ issued c0 pre, Hlc.hlcLt t s) ∧
        (∀ r ∈ received pre, Hlc.hlcLt r s) := by
  refine ⟨chain_issued (pre ++ post) c0, ?_⟩
  intro s hs
  have hms : Hlc.hlcLt (runClock c0 pre) s :=
    hlcLt_issued post (runClock c0 pre) s hs
  constructor
  · intro t ht
    exact Hlc.hlcLe_lt_trans (issued_le_runClock pre c0 t ht) hms
  · intro r hr
    exact Hlc.hlcLt_trans (received_lt_runClock pre c0 r hr) hms

/-- C9: For every clock mutation (getStamp, recvClock, setClock), if
the clock-persistence write throws, the error propagates to the caller
and the in-memory clock remains at its advanced value: the in-memory
update is not rolled back and is not atomic with the durable write.
For getStamp and recvClock the retained value is moreover strictly
above the previous clock. -/
theorem clock_persist_failure_propagates {E : Type}
    (set : HLC → Except E Unit) (c newClock remote : HLC) (now : Nat)
    (e1 e2 e3 : E)
    (h1 : set (Hlc.inc c now) = .error e1)
    (h2 : set (Hlc.recv c remote now) = .error e2)
    (h3 : set newClock = .error e3) :
    getStampOp set c now = (Hlc.inc c now, .error e1) ∧
      Hlc.hlcLt c (getStampOp set c now).1 ∧
      recvClockOp set c remote now = (Hlc.recv c remote now, .error e2) ∧
      Hlc.hlcLt c (recvClockOp set c remote now).1 ∧
      setClockOp set newClock = (newClock, .error e3) := by
  refine ⟨?_, ?_, ?_, ?_, ?_⟩
  · simp [getStampOp, h1, Except.map]
  · exact Hlc.hlcLt_inc c now
  · simp [recvClockOp, h2]
  · exact Hlc.hlcLt_recv_left c remote now
  · simp [setClockOp, h3]

/-- Witness for C9 at a concrete failing clock store. -/
theorem clock_persist_failure_propagates_witness :
    ((fun _ : HLC => (Except.error "boom" : Except String Unit))
        (Hlc.inc ⟨3, 1, "a"⟩ 5) = .error "boom") ∧
      (getStampOp (fun _ => (Except.error "boom" : Except String Unit))
          ⟨3, 1, "a"⟩ 5 = (Hlc.inc ⟨3, 1, "a"⟩ 5, .error "boom") ∧
        Hlc.hlcLt ⟨3, 1, "a"⟩
          (getStampOp (fun _ => (Except.error "boom" : Except String Unit))
            ⟨3, 1, "a"⟩ 5).1 ∧
        recvClockOp (fun _ => (Except.error "boom" : Except String Unit))
            ⟨3, 1, "a"⟩ ⟨4, 0, "b"⟩ 5 =
          (Hlc.recv ⟨3, 1, "a"⟩ ⟨4, 0, "b"⟩ 5, .error "boom") ∧
        Hlc.hlcLt ⟨3, 1, "a"⟩
          (recvClockOp (fun _ => (Except.error "boom" : Except String Unit))
            ⟨3, 1, "a"⟩ ⟨4, 0, "b"⟩ 5).1 ∧
        setClockOp (fun _ => (Except.error "boom" : Except String Unit))
            ⟨9, 9, "z"⟩ = (⟨9, 9, "z"⟩, .error "boom")) :=
  ⟨rfl, clock_persist_failure_propagates
    (fun _ => (Except.error "boom" : Except String Unit))
    ⟨3, 1, "a"⟩ ⟨9, 9, "z"⟩ ⟨4, 0, "b"⟩ 5 "boom" "boom" "boom" rfl rfl rfl⟩

/-- A pending delta as stored by persistence: `{node, delta, stamp}`
(spec §3 PendingDelta); also the shape `handleMessages` builds at
source line 90 (`{...delta, stamp}`). -/
structure StampedDelta (Delta : Type) where
  node : String
  delta : Delta
  stamp : String
deriving DecidableEq

/-- A delta as it travels in a sync message: `{node, delta}`. -/
structure NodeDelta (Delta : Type) where
  node : String
  delta : Delta
deriving DecidableEq

/-- The slice of the `DeltaPersistence` collaborator that `getMessages`
reads (source lines 51–56): the known collections, the queued deltas per
collection, and the persisted server cursor per collection. -/
structure DeltaPersistence (Delta Cursor : Type) where
  collections : List String
  deltas : String → List (StampedDelta Delta)
  getServerCursor : String → Option Cursor

/-- An outbound `{type: sync, collection, serverCursor, deltas}`
client message (the `type` tag is constant and omitted). -/
structure ClientSyncMessage (Delta Cursor : Type) where
  collection : String
  serverCursor : Option Cursor
  deltas : List (NodeDelta Delta)
deriving DecidableEq

/-- `getMessages` (source lines 46–70): for each collection, read its
pending deltas and server cursor; emit a sync message iff
`deltas.length || !serverCursor || reconnected`; drop the undefined
entries with `filter(Boolean)`. -/
def getMessages {Delta Cursor : Type} (persistence : DeltaPersistence Delta Cursor)
    (reconnected : Bool) : List (ClientSyncMessage Delta Cursor) :=
  (persistence.collections.map (fun id =>
    let deltas := persistence.deltas id
    let serverCursor := persistence.getServerCursor id
    if deltas.length != 0 || serverCursor.isNone || reconnected then
      some { collection := id,
             serverCursor := serverCursor,
             deltas := deltas.map (fun d => { node := d.node, delta := d.delta }) }
    else none)).filterMap (fun a => a)

/-- C1: For every collection known to persistence, the Outbound Message
Builder includes a sync message for that collection (carrying all its
pending deltas and its current server cursor) if and only if the
pending-delta list of the collection is non-empty, or its server cursor is
absent, or the caller-supplied reconnected flag is true; in particular,
a collection with an existing cursor and zero pending deltas produces
no message on a non-reconnect pass, and with reconnected = true every
collection produces a message. -/
theorem getMessages_inclusion_iff {Delta Cursor : Type}
    (p : DeltaPersistence Delta Cursor) (reconnected : Bool) (colid : String)
    (hmem : colid ∈ p.collections) :
    ((p.deltas colid ≠ [] ∨ p.getServerCursor colid = none ∨ reconnected = true) →
      ({ collection := colid,
         serverCursor := p.getServerCursor colid,
         deltas := (p.deltas colid).map (fun d => { node := d.node, delta := d.delta }) } :
        ClientSyncMessage Delta Cursor) ∈ getMessages p reconnected) ∧
    ((p.deltas colid = [] ∧ p.getServerCursor colid ≠ none ∧ reconnected = false) →
      ∀ m ∈ getMessages p reconnected, m.collection ≠ colid) := by
  have hmain : ∀ m : ClientSyncMessage Delta Cursor,
      m ∈ getMessages p reconnected ↔
        ∃ id, id ∈ p.collections ∧
          ((p.deltas id).length != 0 ||
            (p.getServerCursor id).isNone || reconnected) = true ∧
          m = { collection := id,
                serverCursor := p.getServerCursor id,
                deltas := (p.deltas id).map
                  (fun d => { node := d.node, delta := d.delta }) } := by
    intro m
    unfold getMessages
    rw [List.mem_filterMap]
    constructor
    · rintro ⟨a, ha, haeq⟩
      rw [List.mem_map] at ha
      obtain ⟨id, hid, hfeq⟩ := ha
      dsimp only at hfeq
      split at hfeq
      · refine ⟨id, hid, by assumption, ?_⟩
        rw [← hfeq] at haeq
        exact (Option.some_inj.mp haeq).symm
      · rw [← hfeq] at haeq
        cases haeq
    · rintro ⟨id, hid, hb, rfl⟩
      refine ⟨some _, ?_, rfl⟩
      rw [List.mem_map]
      refine ⟨id, hid, ?_⟩
      dsimp only
      rw [if_pos hb]
  constructor
  · intro hcond
    rw [hmain]
    refine ⟨colid, hmem, ?_, rfl⟩
    rcases hcond with h | h | h
    · have hne : (p.deltas colid).length ≠ 0 := by
        simpa [List.length_eq_zero] using h
      simp [hne]
    · simp [h]
    · simp [h]
  · rintro ⟨hd, hc, hr⟩ m hm hcol
    rw [hmain] at hm
    obtain ⟨id, hid, hb, rfl⟩ := hm
    simp only at hcol
    subst hcol
    rw [hd, hr] at hb
    simp at hb
    exact hc hb

/-- Witness for C1: a collection with one pending delta and no cursor
is included on a non-reconnect pass. -/
theorem getMessages_inclusion_iff_witness :
    ("todos" ∈ (["todos"] : List String)) ∧
      ({ collection := "todos", serverCursor := none,
         deltas := [{ node := "t1", delta := (1 : Nat) }] } :
        ClientSyncMessage Nat Nat) ∈
        getMessages
          { collections := ["todos"],
            deltas := fun _ => [{ node := "t1", delta := (1 : Nat), stamp := "s1" }],
            getServerCursor := fun _ => none }
          false :=
  ⟨by decide,
    (getMessages_inclusion_iff
      { collections := ["todos"],
        deltas := fun _ => [{ node := "t1", delta := (1 : Nat), stamp := "s1" }],
        getServerCursor := fun _ => none }
      false "todos" (by decide)).1
      (Or.inr (Or.inl rfl))⟩

/-- Association-list lookup, modelling a JS object read `obj[key]`
(missing key reads as `undefined`, here `none`). -/
def alookup {α : Type} : List (String × α) → String → Option α
  | [], _ => none
  | (k, v) :: rest, key => if k = key then some v else alookup rest key

/-- Association-list write `obj[key] = v` for a key already present:
replaces the first binding of `key`; a missing key leaves the list
unchanged (the source only assigns under a presence guard). -/
def aupdate {α : Type} : List (String × α) → String → α → List (String × α)
  | [], _, _ => []
  | (k, v) :: rest, key, nv =>
      if k = key then (k, nv) :: rest else (k, v) :: aupdate rest key nv

/-- The per-collection in-memory state (spec §3 CollectionState; the
`newCollection` result of the `shared` module): the materialized cache, the
number of registered collection-wide listeners, and the number of
per-node listeners registered for each node id.  Listener callbacks
are opaque, so only their registration counts matter to the claims. -/
structure CollectionState (Data : Type) where
  cache : List (String × Data)
  listeners : Nat
  itemListeners : List (String × Nat)
deriving DecidableEq

/-- An inbound server message (spec §3): `{type: sync, collection,
serverCursor, deltas}` or `{type: ack, collection, deltaStamp}`. -/
inductive ServerMessage (Delta Cursor : Type) where
  | sync (collection : String) (serverCursor : Cursor) (deltas : List (NodeDelta Delta))
  | ack (collection : String) (deltaStamp : String)
deriving DecidableEq

/-- The observable effects `handleMessages` performs on its
collaborators, in order: the atomic persistence merge, collection-wide
listener calls (listener index, changes list), per-node listener calls
(node id, listener index, projected value), the cross-tab broadcast,
the clock receive, and the pending-delta deletion request. -/
inductive Event (Delta Value Cursor : Type) where
  | applyDeltas (collection : String) (deltas : List (StampedDelta Delta))
      (serverCursor : Cursor)
  | notifyListener (idx : Nat) (changes : List (String × Value))
  | notifyItemListener (id : String) (idx : Nat) (value : Value)
  | crossTabChanges (col : String) (nodes : List String)
  | recvClock (stamp : String)
  | deleteDeltas (collection : String) (deltaStamp : String)
deriving DecidableEq

/-- The collaborators `handleMessages` closes over: `crdt.deltas.stamp`,
`crdt.deltas.apply`, `crdt.value`, the persistence merge entry point
`applyDeltas` (an oracle returning the merged data mapping), and the
JS truthiness of `Data` values (how `if (cache[id])` reads them). -/
structure SyncEnv (Delta Data Value Cursor : Type) where
  stamp : Delta → String
  apply : Data → Delta → Data
  value : Data → Value
  applyDeltas : String → List (StampedDelta Delta) → Cursor → String → Data
  truthy : Data → Bool

/-- The stamped deltas `handleMessages` builds at source lines 90–93:
`{...delta, stamp: crdt.deltas.stamp(delta.delta)}`. -/
def stamped {Delta Data Value Cursor : Type} (E : SyncEnv Delta Data Value Cursor)
    (deltas : List (NodeDelta Delta)) : List (StampedDelta Delta) :=
  deltas.map (fun d => { node := d.node, delta := d.delta, stamp := E.stamp d.delta })

/-- One step of accumulating `changed[delta.node] = true` (source lines
85–88): a JS object keeps the first insertion position of each key. -/
def insertChanged (acc : List String) (n : String) : List String :=
  if n ∈ acc then acc else acc ++ [n]

/-- `Object.keys(changed)` (source line 95): the distinct changed node
ids in first-occurrence order. -/
def changedKeys (nodes : List String) : List String :=
  nodes.foldl insertChanged []

/-- One step of the `maxStamp` fold (source lines 135–141):
`if (!maxStamp || stamp > maxStamp) maxStamp = stamp`, where `!s` is
true for the empty string. -/
def stepMax (m : Option String) (s : String) : Option String :=
  match m with
  | none => some s
  | some t => if t = "" ∨ t < s then some s else some t

/-- The body of the `changedIds.forEach` loop (source lines 112–122):
update the cache entry only when the cached value reads truthy, then
fire any per-node listeners for the id with the projected merged
value.  The accumulator carries the cache and the event trace. -/
def syncIdStep {Delta Data Value Cursor : Type} (E : SyncEnv Delta Data Value Cursor)
    (itemListeners : List (String × Nat)) (data : String → Data)
    (acc : List (String × Data) × List (Event Delta Value Cursor)) (id : String) :
    List (String × Data) × List (Event Delta Value Cursor) :=
  let cache := match alookup acc.1 id with
    | some d => if E.truthy d then aupdate acc.1 id (data id) else acc.1
    | none => acc.1
  let evs := match alookup itemListeners id with
    | some n => (List.range n).map
        (fun i => Event.notifyItemListener id i (E.value (data id)))
    | none => []
  (cache, acc.2 ++ evs)

/-- The outcome of handling one inbound message: the effects performed
(in order, up to the point any exception is thrown), the in-memory
state afterwards, and whether the handler threw. -/
structure HandleResult (Delta Data Value Cursor : Type) where
  events : List (Event Delta Value Cursor)
  state : List (String × CollectionState Data)
  errored : Bool
deriving DecidableEq

/-- `handleMessages` (source lines 72–150), per message.  For a sync
message: record the changed ids, stamp the deltas, call the
persistence merge, then — reading `col = state[msg.collection]` — fire
collection-wide listeners if any are registered, run the per-id
cache/listener loop, broadcast cross-tab if anything changed, and
receive the maximum delta stamp into the clock.  When the collection
is unknown, `col` is undefined and `col.listeners` throws after the
persistence merge has already been requested.  For an ack message:
request deletion of the acknowledged pending deltas. -/
def handleMessage {Delta Data Value Cursor : Type}
    (E : SyncEnv Delta Data Value Cursor)
    (state : List (String × CollectionState Data)) :
    ServerMessage Delta Cursor → HandleResult Delta Data Value Cursor
  | .ack collection deltaStamp =>
      { events := [.deleteDeltas collection deltaStamp],
        state := state, errored := false }
  | .sync collection serverCursor deltas =>
      let colq := alookup state collection
      let changedIds := changedKeys (deltas.map (fun d => d.node))
      let deltasWithStamps := stamped E deltas
      let data := E.applyDeltas collection deltasWithStamps serverCursor
      let ev0 : List (Event Delta Value Cursor) :=
        [.applyDeltas collection deltasWithStamps serverCursor]
      match colq with
      | none => { events := ev0, state := state, errored := true }
      | some col =>
        let listenerEvents :=
          if col.listeners ≠ 0 then
            let changes := changedIds.map (fun id => (id, E.value (data id)))
            (List.range col.listeners).map (fun i => Event.notifyListener i changes)
          else []
        let idResult := changedIds.foldl (syncIdStep E col.itemListeners data)
          (col.cache, [])
        let crossTab := if changedIds.length ≠ 0 then
            [Event.crossTabChanges collection changedIds]
          else []
        let maxStamp := deltas.foldl (fun m d => stepMax m (E.stamp d.delta)) none
        let clockEvents := match maxStamp with
          | some s => if s ≠ "" then [Event.recvClock s] else []
          | none => []
        { events := ev0 ++ listenerEvents ++ idResult.2 ++ crossTab ++ clockEvents,
          state := aupdate state collection { col with cache := idResult.1 },
          errored := false }

/-- The cache entry for node `N` of collection `colid`, read through
the in-memory state map. -/
def cacheEntry {Data : Type} (st : List (String × CollectionState Data))
    (colid N : String) : Option Data :=
  match alookup st colid with
  | some c => alookup c.cache N
  | none => none

theorem alookup_aupdate_self {α : Type} (l : List (String × α)) (k : String)
    (v nv : α) (h : alookup l k = some v) :
    alookup (aupdate l k nv) k = some nv := by
  induction l with
  | nil => simp [alookup] at h
  | cons p rest ih =>
    obtain ⟨pk, pv⟩ := p
    by_cases hk : pk = k
    · simp [alookup, aupdate, hk]
    · simp only [alookup, aupdate, if_neg hk] at h ⊢
      exact ih h

theorem alookup_aupdate_ne {α : Type} (l : List (String × α)) (key k : String)
    (nv : α) (h : key ≠ k) :
    alookup (aupdate l key nv) k = alookup l k := by
  induction l with
  | nil => simp [alookup, aupdate]
  | cons p rest ih =>
    obtain ⟨pk, pv⟩ := p
    by_cases hk : pk = key
    · subst hk
      simp [alookup, aupdate, if_neg h]
    · simp only [aupdate, if_neg hk, alookup]
      by_cases hk2 : pk = k
      · simp [hk2]
      · simp only [if_neg hk2]
        exact ih

theorem aupdate_of_lookup_none {α : Type} (l : List (String × α)) (k : String)
    (nv : α) (h : alookup l k = none) : aupdate l k nv = l := by
  induction l with
  | nil => rfl
  | cons p rest ih =>
    obtain ⟨pk, pv⟩ := p
    by_cases hk : pk = k
    · simp [alookup, hk] at h
    · simp only [alookup, if_neg hk] at h
      simp [aupdate, if_neg hk, ih h]

theorem aupdate_self {α : Type} (l : List (String × α)) (k : String) (v : α)
    (h : alookup l k = some v) : aupdate l k v = l := by
  induction l with
  | nil => rfl
  | cons p rest ih =>
    obtain ⟨pk, pv⟩ := p
    by_cases hk : pk = k
    · simp only [alookup, if_pos hk] at h
      cases h
      simp [aupdate, hk]
    · simp only [alookup, if_neg hk] at h
      simp [aupdate, if_neg hk, ih h]

theorem mem_foldl_insertChanged (ns : List String) (acc : List String)
    (a : String) : a ∈ ns.foldl insertChanged acc ↔ a ∈ acc ∨ a ∈ ns := by
  induction ns generalizing acc with
  | nil => simp
  | cons n rest ih =>
    simp only [List.foldl_cons, ih]
    unfold insertChanged
    by_cases hn : n ∈ acc
    · simp only [if_pos hn]
      constructor
      · rintro (h | h)
        · exact Or.inl h
        · exact Or.inr (List.mem_cons_of_mem n h)
      · rintro (h | h)
        · exact Or.inl h
        · rcases List.mem_cons.mp h with rfl | h
          · exact Or.inl hn
          · exact Or.inr h
    · simp only [if_neg hn, List.mem_append, List.mem_singleton, List.mem_cons]
      tauto

theorem mem_changedKeys (ns : List String) (a : String) :
    a ∈ changedKeys ns ↔ a ∈ ns := by
  unfold changedKeys
  rw [mem_foldl_insertChanged]
  simp

/-- The cache produced by the per-id loop, read at one node: untouched
when the node was never cached or was not changed or read falsy;
otherwise overwritten with the merged data. -/
theorem alookup_syncIdFold {Delta Data Value Cursor : Type}
    (E : SyncEnv Delta Data Value Cursor) (itemL : List (String × Nat))
    (data : String → Data) (ids : List String)
    (c : List (String × Data)) (evs : List (Event Delta Value Cursor)) (N : String) :
    alookup (ids.foldl (syncIdStep E itemL data) (c, evs)).1 N =
      match alookup c N with
      | none => none
      | some v => if N ∈ ids ∧ E.truthy v = true then some (data N) else some v := by
  induction ids generalizing c evs with
  | nil =>
    simp only [List.foldl_nil]
    cases h : alookup c N with
    | none => rfl
    | some v => simp
  | cons id rest ih =>
    simp only [List.foldl_cons]
    by_cases hid : id = N
    · subst hid
      cases h : alookup c id with
      | none =>
        rw [show rest.foldl (syncIdStep E itemL data) (syncIdStep E itemL data (c, evs) id) =
            rest.foldl (syncIdStep E itemL data) (c, (syncIdStep E itemL data (c, evs) id).2) by
          congr 1
          exact Prod.ext (by simp [syncIdStep, h]) rfl]
        rw [ih]
        simp [h]
      | some v =>
        by_cases ht : E.truthy v = true
        · rw [show rest.foldl (syncIdStep E itemL data) (syncIdStep E itemL data (c, evs) id) =
              rest.foldl (syncIdStep E itemL data)
                (aupdate c id (data id), (syncIdStep E itemL data (c, evs) id).2) by
            congr 1
            exact Prod.ext (by simp [syncIdStep, h, ht]) rfl]
          rw [ih]
          rw [alookup_aupdate_self c id v (data id) h]
          simp only [h, ht, List.mem_cons, true_or, and_true, if_pos, true_and]
          split <;> rfl
        · rw [show rest.foldl (syncIdStep E itemL data) (syncIdStep E itemL data (c, evs) id) =
              rest.foldl (syncIdStep E itemL data) (c, (syncIdStep E itemL data (c, evs) id).2) by
            congr 1
            exact Prod.ext (by simp [syncIdStep, h, ht]) rfl]
          rw [ih]
          simp [h, ht]
    · have hcache : (syncIdStep E itemL data (c, evs) id).1 = c ∨
          (syncIdStep E itemL data (c, evs) id).1 = aupdate c id (data id) := by
        unfold syncIdStep
        cases alookup c id with
        | none => exact Or.inl rfl
        | some d =>
          by_cases ht : E.truthy d = true
          · simp [ht]
          · simp [ht]
      have hlook : alookup (syncIdStep E itemL data (c, evs) id).1 N = alookup c N := by
        rcases hcache with h | h
        · rw [h]
        · rw [h, alookup_aupdate_ne c id N (data id) hid]
      rw [show rest.foldl (syncIdStep E itemL data) (syncIdStep E itemL data (c, evs) id) =
          rest.foldl (syncIdStep E itemL data)
            ((syncIdStep E itemL data (c, evs) id).1,
             (syncIdStep E itemL data (c, evs) id).2) by rfl]
      rw [ih]
      rw [hlook]
      cases alookup c N with
      | none => rfl
      | some v =>
        have hNid : ¬(N = id) := fun hh => hid hh.symm
        simp [List.mem_cons, hNid]

/-- The per-node listener calls the loop performs for one changed id. -/
def itemEventsFor {Delta Data Value Cursor : Type}
    (E : SyncEnv Delta Data Value Cursor) (itemL : List (String × Nat))
    (data : String → Data) (id : String) : List (Event Delta Value Cursor) :=
  match alookup itemL id with
  | some n => (List.range n).map
      (fun i => Event.notifyItemListener id i (E.value (data id)))
  | none => []

/-- The event trace of the per-id loop is the concatenation of each
per-node listener calls of each changed id, appended to the incoming trace. -/
theorem syncIdFold_snd {Delta Data Value Cursor : Type}
    (E : SyncEnv Delta Data Value Cursor) (itemL : List (String × Nat))
    (data : String → Data) (ids : List String)
    (c : List (String × Data)) (evs : List (Event Delta Value Cursor)) :
    (ids.foldl (syncIdStep E itemL data) (c, evs)).2 =
      evs ++ ids.flatMap (itemEventsFor E itemL data) := by
  induction ids generalizing c evs with
  | nil => simp
  | cons id rest ih =>
    simp only [List.foldl_cons, List.flatMap_cons]
    rw [show syncIdStep E itemL data (c, evs) id =
        ((syncIdStep E itemL data (c, evs) id).1,
          evs ++ itemEventsFor E itemL data id) by
      exact Prod.ext rfl (by simp [syncIdStep, itemEventsFor])]
    rw [ih]
    simp

/-- The `maxStamp` fold computes a maximum: starting from a non-empty
accumulator, over stamps that are all non-empty, it returns the
largest stamp seen. -/
theorem stepMax_fold (l : List String) (m : String) (hm : m ≠ "")
    (hl : ∀ s ∈ l, s ≠ "") :
    ∃ M, l.foldl stepMax (some m) = some M ∧ (M = m ∨ M ∈ l) ∧ m ≤ M ∧
      ∀ s ∈ l, s ≤ M := by
  induction l generalizing m with
  | nil => exact ⟨m, rfl, Or.inl rfl, le_refl m, by simp⟩
  | cons s rest ih =>
    have hs : s ≠ "" := hl s (List.mem_cons_self s rest)
    have hrest : ∀ t ∈ rest, t ≠ "" := fun t ht => hl t (List.mem_cons_of_mem s ht)
    simp only [List.foldl_cons]
    by_cases hlt : m = "" ∨ m < s
    · rw [show stepMax (some m) s = some s by
        show (if m = "" ∨ m < s then some s else some m) = some s
        rw [if_pos hlt]]
      obtain ⟨M, hM, hmem, hle, hall⟩ := ih s hs hrest
      have hms : m ≤ s := by
        rcases hlt with h | h
        · exact absurd h hm
        · exact le_of_lt h
      refine ⟨M, hM, ?_, le_trans hms hle, ?_⟩
      · rcases hmem with rfl | h
        · exact Or.inr (List.mem_cons_self _ _)
        · exact Or.inr (List.mem_cons_of_mem s h)
      · intro t ht
        rcases List.mem_cons.mp ht with rfl | h
        · exact hle
        · exact hall t h
    · rw [show stepMax (some m) s = some m by
        show (if m = "" ∨ m < s then some s else some m) = some m
        rw [if_neg hlt]]
      push_neg at hlt
      obtain ⟨M, hM, hmem, hle, hall⟩ := ih m hm hrest
      refine ⟨M, hM, ?_, hle, ?_⟩
      · rcases hmem with rfl | h
        · exact Or.inl rfl
        · exact Or.inr (List.mem_cons_of_mem s h)
      · intro t ht
        rcases List.mem_cons.mp ht with rfl | h
        · exact le_trans (le_of_not_lt hlt.2) hle
        · exact hall t h

/-- A concrete collaborator environment for the evaluation witnesses:
deltas, data, values and cursors are all numbers; every stamp is
non-empty; every data value reads truthy; the merge oracle returns 7
everywhere; projection adds 100. -/
def envW : SyncEnv Nat Nat Nat Nat where
  stamp := fun d => "s" ++ toString d
  apply := fun d _ => d
  value := fun d => d + 100
  applyDeltas := fun _ _ _ _ => 7
  truthy := fun _ => true

/-- C10: For every inbound ack message, processing it performs exactly
one effect — requesting deletion of pending deltas for the named
collection up to and including the acknowledged stamp — and leaves
everything else unchanged: the in-memory cache, registered listeners,
the local clock, and the cross-context broadcast channel are
untouched. -/
theorem handleMessage_ack_frame {Delta Data Value Cursor : Type}
    (E : SyncEnv Delta Data Value Cursor)
    (state : List (String × CollectionState Data))
    (collection deltaStamp : String) :
    handleMessage E state (.ack collection deltaStamp) =
      { events := [.deleteDeltas collection deltaStamp],
        state := state, errored := false } := rfl

/-- C4 counterexample: a sync message naming a collection the client
does not track makes `handleMessages` throw (at `col.listeners`), so
processing it is not error-free as the claim states. -/
theorem handleMessage_unknown_collection_counterexample :
    (handleMessage envW ([] : List (String × CollectionState Nat))
      (.sync "ghost" (0 : Nat) [{ node := "n1", delta := (1 : Nat) }])).errored =
      true := rfl

/-- C4 amended: an inbound ack — whether or not its stamp matches a
pending delta — never throws and performs only the deleteDeltas
request, leaving in-memory state unchanged; but a sync message naming
an untracked collection is not a no-op: it first invokes the
persistence merge with the stamped deltas and then throws a type
error, leaving the in-memory state unchanged. -/
theorem handleMessage_anomaly_behavior {Delta Data Value Cursor : Type}
    (E : SyncEnv Delta Data Value Cursor)
    (state : List (String × CollectionState Data))
    (collection deltaStamp : String) (cur : Cursor)
    (deltas : List (NodeDelta Delta))
    (hunknown : alookup state collection = none) :
    handleMessage E state (.ack collection deltaStamp) =
      { events := [.deleteDeltas collection deltaStamp],
        state := state, errored := false } ∧
    handleMessage E state (.sync collection cur deltas) =
      { events := [.applyDeltas collection (stamped E deltas) cur],
        state := state, errored := true } := by
  refine ⟨rfl, ?_⟩
  unfold handleMessage
  simp only [hunknown]

/-- Witness for the amended claim C4 at a concrete untracked sync. -/
theorem handleMessage_anomaly_behavior_witness :
    alookup ([] : List (String × CollectionState Nat)) "ghost" = none ∧
      (handleMessage envW ([] : List (String × CollectionState Nat))
          (.ack "ghost" "s9") =
        { events := [.deleteDeltas "ghost" "s9"], state := [], errored := false } ∧
      handleMessage envW ([] : List (String × CollectionState Nat))
          (.sync "ghost" (0 : Nat) [{ node := "n1", delta := (1 : Nat) }]) =
        { events := [.applyDeltas "ghost"
            (stamped envW [{ node := "n1", delta := (1 : Nat) }]) 0],
          state := [], errored := true }) :=
  ⟨rfl, handleMessage_anomaly_behavior envW [] "ghost" "s9" 0
    [{ node := "n1", delta := (1 : Nat) }] rfl⟩

/-- C3 counterexample: a sync message with zero deltas does not skip
listener notification — a registered collection-wide listener is
invoked (with an empty change list). -/
theorem handleMessage_empty_sync_counterexample :
    Event.notifyListener 0 ([] : List (String × Nat)) ∈
      (handleMessage envW
        [("todos", { cache := [], listeners := 1, itemListeners := [] })]
        (.sync "todos" (0 : Nat) ([] : List (NodeDelta Nat)))).events := by
  decide

/-- C3 amended: a sync message with an empty deltas list still applies
the new server cursor through the persistence collaborator, fires no
per-node listener, no cross-tab broadcast and no clock receive — but
each registered collection-wide listener is still invoked once, with
an empty change list. -/
theorem handleMessage_empty_sync_behavior {Delta Data Value Cursor : Type}
    (E : SyncEnv Delta Data Value Cursor)
    (state : List (String × CollectionState Data))
    (collection : String) (cur : Cursor) (col : CollectionState Data)
    (hcol : alookup state collection = some col) :
    handleMessage E state (.sync collection cur []) =
      { events := Event.applyDeltas collection [] cur ::
          (List.range col.listeners).map (fun i => Event.notifyListener i []),
        state := state, errored := false } := by
  unfold handleMessage
  simp only [hcol]
  by_cases hn : col.listeners = 0
  · simp [stamped, changedKeys, insertChanged, hn]
    rw [show (⟨col.cache, 0, col.itemListeners⟩ : CollectionState Data) = col from by
      rw [← hn]]
    exact aupdate_self state collection col hcol
  · simp [stamped, changedKeys, insertChanged, hn,
      aupdate_self state collection col hcol]

theorem alookup_mem {α : Type} (l : List (String × α)) (k : String) (v : α)
    (h : alookup l k = some v) : (k, v) ∈ l := by
  induction l with
  | nil => simp [alookup] at h
  | cons p rest ih =>
    obtain ⟨pk, pv⟩ := p
    by_cases hk : pk = k
    · subst hk
      have h2 : pv = v := by simpa [alookup] using h
      subst h2
      exact List.mem_cons_self _ _
    · simp only [alookup, if_neg hk] at h
      exact List.mem_cons_of_mem _ (ih h)

/-- Normal form of handling a sync message for a tracked collection:
the persistence merge, then the collection-wide listener calls, then
the per-node listener calls, then the cross-tab broadcast, then the
clock receive; the state keeps everything except the cache of the collection,
cache, which the per-id loop rewrites. -/
theorem handleMessage_sync_eq {Delta Data Value Cursor : Type}
    (E : SyncEnv Delta Data Value Cursor)
    (state : List (String × CollectionState Data))
    (collection : String) (cur : Cursor) (deltas : List (NodeDelta Delta))
    (col : CollectionState Data)
    (hcol : alookup state collection = some col) :
    handleMessage E state (.sync collection cur deltas) =
      { events := [Event.applyDeltas collection (stamped E deltas) cur] ++
          (if col.listeners ≠ 0 then
            (List.range col.listeners).map (fun i => Event.notifyListener i
              ((changedKeys (deltas.map (fun d => d.node))).map
                (fun id => (id, E.value
                  (E.applyDeltas collection (stamped E deltas) cur id)))))
          else []) ++
          (changedKeys (deltas.map (fun d => d.node))).flatMap
            (itemEventsFor E col.itemListeners
              (E.applyDeltas collection (stamped E deltas) cur)) ++
          (if (changedKeys (deltas.map (fun d => d.node))).length ≠ 0 then
            [Event.crossTabChanges collection
              (changedKeys (deltas.map (fun d => d.node)))]
          else []) ++
          (match deltas.foldl (fun m d => stepMax m (E.stamp d.delta)) none with
            | some s => if s ≠ "" then [Event.recvClock s] else []
            | none => []),
        state := aupdate state collection
          { col with cache :=
              ((changedKeys (deltas.map (fun d => d.node))).foldl
                (syncIdStep E col.itemListeners
                  (E.applyDeltas collection (stamped E deltas) cur))
                (col.cache, [])).1 },
        errored := false } := by
  unfold handleMessage
  simp only [hcol]
  rw [syncIdFold_snd]
  simp [stamped]

/-- C2: For every inbound sync message and every changed node id N,
applying the message never creates a cache entry for N in the
in-memory cache of the collection if none existed before, and it does
update the cache entry for N to the newly merged data if an entry
already existed.  (Cached values are CRDT data objects, which read
truthy in JS; that representation invariant is the `htruthy`
hypothesis.) -/
theorem handleMessage_cache_isolation {Delta Data Value Cursor : Type}
    (E : SyncEnv Delta Data Value Cursor)
    (state : List (String × CollectionState Data))
    (collection : String) (cur : Cursor) (deltas : List (NodeDelta Delta))
    (col : CollectionState Data)
    (hcol : alookup state collection = some col)
    (htruthy : ∀ p ∈ col.cache, E.truthy p.2 = true)
    (N : String) (hN : N ∈ deltas.map (fun d => d.node)) :
    (cacheEntry state collection N = none →
      cacheEntry (handleMessage E state (.sync collection cur deltas)).state
        collection N = none) ∧
    (∀ v, cacheEntry state collection N = some v →
      cacheEntry (handleMessage E state (.sync collection cur deltas)).state
        collection N =
        some (E.applyDeltas collection (stamped E deltas) cur N)) := by
  rw [handleMessage_sync_eq E state collection cur deltas col hcol]
  have hupd : alookup (aupdate state collection
      { col with cache :=
          ((changedKeys (deltas.map (fun d => d.node))).foldl
            (syncIdStep E col.itemListeners
              (E.applyDeltas collection (stamped E deltas) cur))
            (col.cache, [])).1 }) collection =
      some { col with cache :=
          ((changedKeys (deltas.map (fun d => d.node))).foldl
            (syncIdStep E col.itemListeners
              (E.applyDeltas collection (stamped E deltas) cur))
            (col.cache, [])).1 } :=
    alookup_aupdate_self state collection col _ hcol
  constructor
  · intro hnone
    unfold cacheEntry at hnone ⊢
    simp only [hcol] at hnone
    simp only [hupd]
    rw [alookup_syncIdFold]
    simp only [hnone]
  · intro v hv
    unfold cacheEntry at hv ⊢
    simp only [hcol] at hv
    simp only [hupd]
    rw [alookup_syncIdFold]
    simp only [hv]
    rw [if_pos ⟨(mem_changedKeys _ N).mpr hN,
      htruthy (N, v) (alookup_mem col.cache N v hv)⟩]

/-- Witness for C2: a cached node is rewritten to the merged data, and
an uncached node stays uncached. -/
theorem handleMessage_cache_isolation_witness :
    alookup [("todos",
        ({ cache := [("n1", 5)], listeners := 0, itemListeners := [] } :
          CollectionState Nat))] "todos" =
      some { cache := [("n1", 5)], listeners := 0, itemListeners := [] } ∧
    (∀ p ∈ [("n1", (5 : Nat))], envW.truthy p.2 = true) ∧
    "n1" ∈ ([{ node := "n1", delta := (3 : Nat) }] :
      List (NodeDelta Nat)).map (fun d => d.node) ∧
    (∀ v, cacheEntry [("todos",
        ({ cache := [("n1", 5)], listeners := 0, itemListeners := [] } :
          CollectionState Nat))] "todos" "n1" = some v →
      cacheEntry (handleMessage envW
          [("todos", { cache := [("n1", 5)], listeners := 0, itemListeners := [] })]
          (.sync "todos" (0 : Nat) [{ node := "n1", delta := (3 : Nat) }])).state
        "todos" "n1" =
        some (envW.applyDeltas "todos"
          (stamped envW [{ node := "n1", delta := (3 : Nat) }]) 0 "n1")) :=
  ⟨rfl, by decide, by decide,
    (handleMessage_cache_isolation envW
      [("todos", { cache := [("n1", 5)], listeners := 0, itemListeners := [] })]
      "todos" 0 [{ node := "n1", delta := (3 : Nat) }]
      { cache := [("n1", 5)], listeners := 0, itemListeners := [] }
      rfl (by decide) "n1" (by decide)).2⟩

theorem filter_ite {α : Type} (c : Prop) [Decidable c] (A B : List α)
    (p : α → Bool) :
    (if c then A else B).filter p = if c then A.filter p else B.filter p := by
  split_ifs <;> rfl

/-- Every event the clock step can emit is a `recvClock`. -/
theorem clockEvents_all_recvClock {Delta Value Cursor : Type} (m : Option String)
    (e : Event Delta Value Cursor)
    (h : e ∈ (match m with
      | some s => if s ≠ "" then [Event.recvClock s] else []
      | none => ([] : List (Event Delta Value Cursor)))) :
    ∃ s, e = Event.recvClock s := by
  cases m with
  | none => simp at h
  | some s =>
    have h2 : e ∈ (if s ≠ "" then [Event.recvClock s] else
        ([] : List (Event Delta Value Cursor))) := h
    by_cases hs : s ≠ ""
    · rw [if_pos hs] at h2
      simp at h2
      exact ⟨s, h2⟩
    · rw [if_neg hs] at h2
      simp at h2

/-- Membership in the per-node listener calls of one changed id. -/
theorem mem_itemEventsFor {Delta Data Value Cursor : Type}
    (E : SyncEnv Delta Data Value Cursor) (itemL : List (String × Nat))
    (data : String → Data) (id N : String) (i : Nat) (v : Value) :
    Event.notifyItemListener N i v ∈ itemEventsFor E itemL data id ↔
      (N = id ∧ ∃ n, alookup itemL id = some n ∧ i < n ∧
        v = E.value (data id)) := by
  unfold itemEventsFor
  cases h : alookup itemL id with
  | none => simp
  | some n =>
    simp only [List.mem_map, List.mem_range, Option.some_inj]
    constructor
    · rintro ⟨j, hj, heq⟩
      obtain ⟨hid, hidx, hval⟩ := Event.notifyItemListener.inj heq
      exact ⟨hid.symm, n, rfl, hidx ▸ hj, hval.symm⟩
    · rintro ⟨rfl, n2, hn2, hi2, rfl⟩
      cases hn2
      exact ⟨i, hi2, rfl⟩

/-- Every event of the per-node listener loop is a `notifyItemListener`
for its own id. -/
theorem itemEventsFor_shape {Delta Data Value Cursor : Type}
    (E : SyncEnv Delta Data Value Cursor) (itemL : List (String × Nat))
    (data : String → Data) (id : String) (e : Event Delta Value Cursor)
    (h : e ∈ itemEventsFor E itemL data id) :
    ∃ j val, e = Event.notifyItemListener id j val := by
  unfold itemEventsFor at h
  cases hx : alookup itemL id with
  | none =>
    rw [hx] at h
    simp at h
  | some n =>
    rw [hx] at h
    rw [List.mem_map] at h
    obtain ⟨j, _, hj⟩ := h
    exact ⟨j, E.value (data id), hj.symm⟩

/-- C5 counterexample: an inbound sync touching node `n1`, which has a
registered per-node listener but no cache entry, still fires that
per-node listener — per-node listeners are not restricted to
cache-present ids. -/
theorem handleMessage_item_listener_counterexample :
    cacheEntry [("todos",
        ({ cache := [], listeners := 0, itemListeners := [("n1", 1)] } :
          CollectionState Nat))] "todos" "n1" = none ∧
    Event.notifyItemListener "n1" 0 107 ∈
      (handleMessage envW
        [("todos", { cache := [], listeners := 0, itemListeners := [("n1", 1)] })]
        (.sync "todos" (0 : Nat) [{ node := "n1", delta := (1 : Nat) }])).events := by
  constructor
  · rfl
  · decide

/-- C5 amended: during inbound sync application, the per-node listeners
that fire are exactly those registered for a changed id — regardless of
whether the id is present in the cache (the cache-presence guard only
gates the cache update, not the per-node listener calls); each call
carries the value projected from the merged data. -/
theorem handleMessage_item_listener_fires_iff {Delta Data Value Cursor : Type}
    (E : SyncEnv Delta Data Value Cursor)
    (state : List (String × CollectionState Data))
    (collection : String) (cur : Cursor) (deltas : List (NodeDelta Delta))
    (col : CollectionState Data)
    (hcol : alookup state collection = some col)
    (N : String) (i : Nat) (v : Value) :
    (Event.notifyItemListener N i v ∈
        (handleMessage E state (.sync collection cur deltas)).events) ↔
      (N ∈ deltas.map (fun d => d.node) ∧
        ∃ n, alookup col.itemListeners N = some n ∧ i < n ∧
          v = E.value (E.applyDeltas collection (stamped E deltas) cur N)) := by
  rw [handleMessage_sync_eq E state collection cur deltas col hcol]
  constructor
  · intro h
    simp only [List.mem_append] at h
    rcases h with (((h | h) | h) | h) | h
    · simp at h
    · rw [List.mem_ite_nil_right] at h
      obtain ⟨_, h⟩ := h
      rw [List.mem_map] at h
      obtain ⟨j, _, hj⟩ := h
      cases hj
    · rw [List.mem_flatMap] at h
      obtain ⟨id, hid, hmem⟩ := h
      rw [mem_itemEventsFor] at hmem
      obtain ⟨rfl, n, hn, hi, hv⟩ := hmem
      exact ⟨(mem_changedKeys _ _).mp hid, n, hn, hi, hv⟩
    · rw [List.mem_ite_nil_right] at h
      obtain ⟨_, h⟩ := h
      simp at h
    · obtain ⟨s, hs⟩ := clockEvents_all_recvClock _ _ h
      cases hs
  · rintro ⟨hN, n, hn, hi, hv⟩
    simp only [List.mem_append]
    refine Or.inl (Or.inl (Or.inr ?_))
    rw [List.mem_flatMap]
    exact ⟨N, (mem_changedKeys _ _).mpr hN,
      (mem_itemEventsFor E col.itemListeners _ N N i v).mpr ⟨rfl, n, hn, hi, hv⟩⟩

/-- Witness for the amended claim C5: with two listeners on a cache-absent
changed node, the second listener call is in the event trace. -/
theorem handleMessage_item_listener_fires_iff_witness :
    alookup [("todos",
        ({ cache := [], listeners := 0, itemListeners := [("n1", 2)] } :
          CollectionState Nat))] "todos" =
      some { cache := [], listeners := 0, itemListeners := [("n1", 2)] } ∧
    ((Event.notifyItemListener "n1" 1 107 ∈
        (handleMessage envW
          [("todos", { cache := [], listeners := 0, itemListeners := [("n1", 2)] })]
          (.sync "todos" (0 : Nat) [{ node := "n1", delta := (1 : Nat) }])).events) ↔
      ("n1" ∈ ([{ node := "n1", delta := (1 : Nat) }] :
          List (NodeDelta Nat)).map (fun d => d.node) ∧
        ∃ n, alookup [("n1", 2)] "n1" = some n ∧ 1 < n ∧
          107 = envW.value (envW.applyDeltas "todos"
            (stamped envW [{ node := "n1", delta := (1 : Nat) }]) 0 "n1"))) :=
  ⟨rfl, handleMessage_item_listener_fires_iff envW
    [("todos", { cache := [], listeners := 0, itemListeners := [("n1", 2)] })]
    "todos" 0 [{ node := "n1", delta := (1 : Nat) }]
    { cache := [], listeners := 0, itemListeners := [("n1", 2)] }
    rfl "n1" 1 107⟩

/-- Recognizes the clock-receive effect in a trace. -/
def isRecvClockEvent {Delta Value Cursor : Type} : Event Delta Value Cursor → Bool
  | .recvClock _ => true
  | _ => false

/-- Recognizes the call to collection-wide listener number `i`. -/
def isNotifyListenerEvent {Delta Value Cursor : Type} (i : Nat) :
    Event Delta Value Cursor → Bool
  | .notifyListener j _ => j == i
  | _ => false

theorem filter_singleton_eval {α : Type} (p : α → Bool) (a : α) :
    [a].filter p = if p a then [a] else [] := by
  cases hpa : p a <;> simp [List.filter_cons, hpa]

theorem filter_recv_listenerEvents {Delta Value Cursor : Type} (c : Prop)
    [Decidable c] (n : Nat) (changes : List (String × Value)) :
    ((if c then (List.range n).map
        (fun i => (Event.notifyListener i changes : Event Delta Value Cursor))
      else []).filter isRecvClockEvent) = [] := by
  rw [filter_ite]
  split_ifs
  · refine List.filter_eq_nil_iff.mpr ?_
    intro e he
    rw [List.mem_map] at he
    obtain ⟨j, _, rfl⟩ := he
    simp [isRecvClockEvent]
  · rfl

theorem filter_recv_itemEvents {Delta Data Value Cursor : Type}
    (E : SyncEnv Delta Data Value Cursor) (itemL : List (String × Nat))
    (data : String → Data) (ids : List String) :
    ((ids.flatMap (itemEventsFor E itemL data)).filter isRecvClockEvent) = [] := by
  refine List.filter_eq_nil_iff.mpr ?_
  intro e he
  rw [List.mem_flatMap] at he
  obtain ⟨id, _, he⟩ := he
  obtain ⟨j, val, rfl⟩ := itemEventsFor_shape E itemL data id e he
  simp [isRecvClockEvent]

theorem filter_recv_crossTab {Delta Value Cursor : Type} (c : Prop) [Decidable c]
    (colid : String) (nodes : List String) :
    ((if c then [(Event.crossTabChanges colid nodes : Event Delta Value Cursor)]
      else []).filter isRecvClockEvent) = [] := by
  rw [filter_ite]
  split_ifs <;> rfl

/-- C6: For every inbound sync message containing at least one delta,
the receive operation of the local clock is invoked exactly once for that
message, with the maximum stamp (under the total order on stamps) across
all deltas in the message — not once per delta.  (Stamps come from the
CRDT collaborator as packed clock values, which are never the empty
string; that is the `hstamps` hypothesis.) -/
theorem handleMessage_recvClock_once_max {Delta Data Value Cursor : Type}
    (E : SyncEnv Delta Data Value Cursor)
    (state : List (String × CollectionState Data))
    (collection : String) (cur : Cursor) (deltas : List (NodeDelta Delta))
    (col : CollectionState Data)
    (hcol : alookup state collection = some col)
    (hne : deltas ≠ [])
    (hstamps : ∀ d ∈ deltas, E.stamp d.delta ≠ "") :
    ∃ M, ((handleMessage E state (.sync collection cur deltas)).events.filter
        isRecvClockEvent) = [Event.recvClock M] ∧
      M ∈ deltas.map (fun d => E.stamp d.delta) ∧
      ∀ s ∈ deltas.map (fun d => E.stamp d.delta), s ≤ M := by
  obtain ⟨d0, rest, rfl⟩ : ∃ d0 rest, deltas = d0 :: rest := by
    cases deltas with
    | nil => exact absurd rfl hne
    | cons a l => exact ⟨a, l, rfl⟩
  have hs0 : E.stamp d0.delta ≠ "" := hstamps d0 (List.mem_cons_self _ _)
  have hrest : ∀ s ∈ rest.map (fun d => E.stamp d.delta), s ≠ "" := by
    intro s hs
    rw [List.mem_map] at hs
    obtain ⟨d, hd, rfl⟩ := hs
    exact hstamps d (List.mem_cons_of_mem _ hd)
  obtain ⟨M, hM, hmem, hle, hall⟩ :=
    stepMax_fold (rest.map (fun d => E.stamp d.delta)) (E.stamp d0.delta) hs0 hrest
  have hMne : M ≠ "" := by
    rcases hmem with rfl | h
    · exact hs0
    · exact hrest M h
  have hfold : (d0 :: rest).foldl (fun m d => stepMax m (E.stamp d.delta)) none =
      some M := by
    rw [List.foldl_cons]
    show rest.foldl (fun m d => stepMax m (E.stamp d.delta))
      (some (E.stamp d0.delta)) = some M
    rw [List.foldl_map] at hM
    exact hM
  have hclock : (match (d0 :: rest).foldl
        (fun m d => stepMax m (E.stamp d.delta)) none with
      | some s => if s ≠ "" then [Event.recvClock s] else []
      | none => ([] : List (Event Delta Value Cursor))) =
      [Event.recvClock M] := by
    rw [hfold]
    show (if M ≠ "" then [Event.recvClock M] else []) = [Event.recvClock M]
    rw [if_pos hMne]
  refine ⟨M, ?_, ?_, ?_⟩
  · rw [handleMessage_sync_eq E state collection cur (d0 :: rest) col hcol]
    show ((([Event.applyDeltas collection (stamped E (d0 :: rest)) cur] ++ _ ++ _ ++
        _ ++ _).filter isRecvClockEvent) = _)
    rw [hclock]
    simp only [List.filter_append, filter_recv_listenerEvents,
      filter_recv_itemEvents, filter_recv_crossTab]
    simp [isRecvClockEvent]
  · rcases hmem with rfl | h
    · exact List.mem_cons_self _ _
    · rw [List.map_cons]
      exact List.mem_cons_of_mem _ h
  · intro s hs
    rw [List.map_cons, List.mem_cons] at hs
    rcases hs with rfl | hs
    · exact hle
    · exact hall s hs

/-- Witness for C6: two deltas with stamps "s1" < "s2"; the clock
receives "s2" exactly once. -/
theorem handleMessage_recvClock_once_max_witness :
    alookup [("todos",
        ({ cache := [], listeners := 0, itemListeners := [] } :
          CollectionState Nat))] "todos" =
      some { cache := [], listeners := 0, itemListeners := [] } ∧
    ([{ node := "n1", delta := (1 : Nat) }, { node := "n2", delta := (2 : Nat) }] :
      List (NodeDelta Nat)) ≠ [] ∧
    (∀ d ∈ ([{ node := "n1", delta := (1 : Nat) },
        { node := "n2", delta := (2 : Nat) }] : List (NodeDelta Nat)),
      envW.stamp d.delta ≠ "") ∧
    (∃ M, ((handleMessage envW
        [("todos", { cache := [], listeners := 0, itemListeners := [] })]
        (.sync "todos" (0 : Nat)
          [{ node := "n1", delta := (1 : Nat) },
           { node := "n2", delta := (2 : Nat) }])).events.filter
          isRecvClockEvent) = [Event.recvClock M] ∧
      M ∈ ([{ node := "n1", delta := (1 : Nat) },
          { node := "n2", delta := (2 : Nat) }] :
        List (NodeDelta Nat)).map (fun d => envW.stamp d.delta) ∧
      ∀ s ∈ ([{ node := "n1", delta := (1 : Nat) },
          { node := "n2", delta := (2 : Nat) }] :
        List (NodeDelta Nat)).map (fun d => envW.stamp d.delta), s ≤ M) :=
  ⟨rfl, by decide, by decide,
    handleMessage_recvClock_once_max envW
      [("todos", { cache := [], listeners := 0, itemListeners := [] })]
      "todos" 0
      [{ node := "n1", delta := (1 : Nat) }, { node := "n2", delta := (2 : Nat) }]
      { cache := [], listeners := 0, itemListeners := [] }
      rfl (by decide) (by decide)⟩

theorem filter_notify_range_nil {Delta Value Cursor : Type} (n i : Nat)
    (changes : List (String × Value)) (hi : ¬ i < n) :
    ((List.range n).map
      (fun j => (Event.notifyListener j changes : Event Delta Value Cursor))).filter
      (isNotifyListenerEvent i) = [] := by
  refine List.filter_eq_nil_iff.mpr ?_
  intro e he
  rw [List.mem_map] at he
  obtain ⟨j, hj, rfl⟩ := he
  rw [List.mem_range] at hj
  simp only [isNotifyListenerEvent, beq_iff_eq]
  omega

theorem filter_notify_range {Delta Value Cursor : Type} (n i : Nat)
    (changes : List (String × Value)) (hi : i < n) :
    ((List.range n).map
      (fun j => (Event.notifyListener j changes : Event Delta Value Cursor))).filter
      (isNotifyListenerEvent i) = [Event.notifyListener i changes] := by
  induction n with
  | zero => omega
  | succ n ih =>
    rw [List.range_succ, List.map_append, List.filter_append]
    by_cases h : i < n
    · rw [ih h]
      rw [List.map_singleton, filter_singleton_eval]
      rw [if_neg (by
        simp only [isNotifyListenerEvent, Nat.beq_eq_true_eq]
        omega)]
      simp
    · have hin : n = i := by omega
      subst hin
      rw [filter_notify_range_nil n n changes h, List.nil_append]
      rw [List.map_singleton, filter_singleton_eval]
      rw [if_pos (by simp [isNotifyListenerEvent])]

theorem filter_notify_itemEvents {Delta Data Value Cursor : Type} (i : Nat)
    (E : SyncEnv Delta Data Value Cursor) (itemL : List (String × Nat))
    (data : String → Data) (ids : List String) :
    ((ids.flatMap (itemEventsFor E itemL data)).filter
      (isNotifyListenerEvent i)) = [] := by
  refine List.filter_eq_nil_iff.mpr ?_
  intro e he
  rw [List.mem_flatMap] at he
  obtain ⟨id, _, he⟩ := he
  obtain ⟨j, val, rfl⟩ := itemEventsFor_shape E itemL data id e he
  simp [isNotifyListenerEvent]

theorem filter_notify_crossTab {Delta Value Cursor : Type} (i : Nat) (c : Prop)
    [Decidable c] (colid : String) (nodes : List String) :
    ((if c then [(Event.crossTabChanges colid nodes : Event Delta Value Cursor)]
      else []).filter (isNotifyListenerEvent i)) = [] := by
  rw [filter_ite]
  split_ifs <;> rfl

theorem filter_notify_clockEvents {Delta Value Cursor : Type} (i : Nat)
    (m : Option String) :
    ((match m with
      | some s => if s ≠ "" then [Event.recvClock s] else []
      | none => ([] : List (Event Delta Value Cursor))).filter
      (isNotifyListenerEvent i)) = [] := by
  refine List.filter_eq_nil_iff.mpr ?_
  intro e he
  obtain ⟨s, rfl⟩ := clockEvents_all_recvClock m e he
  simp [isNotifyListenerEvent]

/-- C8: For every inbound sync message with at least one delta and at
least one registered collection-wide listener, each such listener is
notified exactly once with the full set of (id, projectedValue) pairs
for all changed ids, where each value is projected from the merged
state returned by persistence — including ids that are absent from the
cache.  Listener `i` (any registered one) receives exactly one call,
whose change list pairs every changed id — the ids of the incoming
deltas, cache-present or not — with the projection of the merged
data. -/
theorem handleMessage_listener_full_notification {Delta Data Value Cursor : Type}
    (E : SyncEnv Delta Data Value Cursor)
    (state : List (String × CollectionState Data))
    (collection : String) (cur : Cursor) (deltas : List (NodeDelta Delta))
    (col : CollectionState Data)
    (hcol : alookup state collection = some col)
    (hne : deltas ≠ []) (i : Nat) (hi : i < col.listeners) :
    ((handleMessage E state (.sync collection cur deltas)).events.filter
        (isNotifyListenerEvent i)) =
      [Event.notifyListener i
        ((changedKeys (deltas.map (fun d => d.node))).map
          (fun id => (id, E.value
            (E.applyDeltas collection (stamped E deltas) cur id))))] ∧
    (∀ id, id ∈ changedKeys (deltas.map (fun d => d.node)) ↔
      ∃ d ∈ deltas, d.node = id) := by
  constructor
  · rw [handleMessage_sync_eq E state collection cur deltas col hcol]
    have hl : col.listeners ≠ 0 := by omega
    show ((([Event.applyDeltas collection (stamped E deltas) cur] ++ _ ++ _ ++
        _ ++ _).filter (isNotifyListenerEvent i)) = _)
    rw [if_pos hl]
    simp only [List.filter_append, filter_notify_itemEvents,
      filter_notify_crossTab, filter_notify_clockEvents]
    rw [filter_notify_range col.listeners i _ hi]
    simp [isNotifyListenerEvent]
  · intro id
    rw [mem_changedKeys]
    exact List.mem_map

/-- Witness for C8: one delta, two listeners; listener 1 gets exactly
one call pairing the changed id with the projected merged value. -/
theorem handleMessage_listener_full_notification_witness :
    alookup [("todos",
        ({ cache := [], listeners := 2, itemListeners := [] } :
          CollectionState Nat))] "todos" =
      some { cache := [], listeners := 2, itemListeners := [] } ∧
    ([{ node := "n1", delta := (1 : Nat) }] : List (NodeDelta Nat)) ≠ [] ∧
    1 < 2 ∧
    (((handleMessage envW
        [("todos", { cache := [], listeners := 2, itemListeners := [] })]
        (.sync "todos" (0 : Nat)
          [{ node := "n1", delta := (1 : Nat) }])).events.filter
        (isNotifyListenerEvent 1)) =
      [Event.notifyListener 1
        ((changedKeys (([{ node := "n1", delta := (1 : Nat) }] :
            List (NodeDelta Nat)).map (fun d => d.node))).map
          (fun id => (id, envW.value
            (envW.applyDeltas "todos"
              (stamped envW [{ node := "n1", delta := (1 : Nat) }]) 0 id))))] ∧
    (∀ id, id ∈ changedKeys (([{ node := "n1", delta := (1 : Nat) }] :
        List (NodeDelta Nat)).map (fun d => d.node)) ↔
      ∃ d ∈ ([{ node := "n1", delta := (1 : Nat) }] : List (NodeDelta Nat)),
        d.node = id)) :=
  ⟨rfl, by decide, by decide,
    handleMessage_listener_full_notification envW
      [("todos", { cache := [], listeners := 2, itemListeners := [] })]
      "todos" 0 [{ node := "n1", delta := (1 : Nat) }]
      { cache := [], listeners := 2, itemListeners := [] }
      rfl (by decide) 1 (by decide)⟩

/-- Witness for the amended claim C3 at a concrete zero-delta sync. -/
theorem handleMessage_empty_sync_behavior_witness :
    alookup [("todos",
        ({ cache := [], listeners := 1, itemListeners := [] } :
          CollectionState Nat))] "todos" =
      some { cache := [], listeners := 1, itemListeners := [] } ∧
    handleMessage envW
        [("todos", { cache := [], listeners := 1, itemListeners := [] })]
        (.sync "todos" (0 : Nat) []) =
      { events := Event.applyDeltas "todos" [] 0 ::
          (List.range 1).map (fun i => Event.notifyListener i []),
        state := [("todos", { cache := [], listeners := 1, itemListeners := [] })],
        errored := false } :=
  ⟨rfl, handleMessage_empty_sync_behavior envW
    [("todos", { cache := [], listeners := 1, itemListeners := [] })]
    "todos" 0 { cache := [], listeners := 1, itemListeners := [] } rfl⟩

end LocalFirst
